import Mathlib

/-!
Verification of the two command-line tools in `bioinformatics_scripts`:

* `fasta/randseq.py` — a random DNA-sequence generator with controllable
  GC-content (`validate_args`, `adhoc_generator`, `output`);
* `fasta/slidingwindow.py` — an overlapping sliding-window scanner over a
  FASTA file (`get_n_perc`, `run_slidingwindow`).

Both scripts do their percentage arithmetic in CPython floats, i.e. in
IEEE-754 binary64 with round-to-nearest, ties-to-even.  That arithmetic is
modelled exactly by `rnd` below, which rounds a rational to the nearest
representable double value.  Randomness (`random.shuffle`,
`random.choice`) is modelled by explicit oracle parameters, and printing
by returning the list of printed lines.
-/

/-- Rounding of a nonnegative rational to the nearest IEEE-754 binary64
value (round half to even), which is what every CPython float operation
applies to its exact result.  `Int.log 2 q` is the exponent of the leading
binary digit; exponents are clamped below at `-1022` (subnormal range).
Negative arguments never arise in this development and are mapped to `0`
together with the argument `0` itself. -/
def rnd (q : ℚ) : ℚ :=
  if q ≤ 0 then 0
  else
    let e := max (Int.log 2 q) (-1022)
    let ulp : ℚ := 2 ^ (e - 52)
    let m0 := ⌊q / ulp⌋
    let r := q / ulp - (m0 : ℚ)
    let m := if r < 1 / 2 then m0
      else if 1 / 2 < r then m0 + 1
      else if m0 % 2 = 0 then m0 else m0 + 1
    (m : ℚ) * ulp

/-! ## Embedding of `fasta/randseq.py` -/

/-- `validate_args` from `randseq.py`: checks `-l`, then `-n`, then `-gc`,
raising `IOError` with the given message on the first violated check.  The
raised message (caught and printed by `__main__`) is returned as `some`. -/
def validate_args (n l gc : ℤ) : Option String :=
  if l ≤ 0 then some "Positive sequence length (-l) required [error]."
  else if n ≤ 0 then some "Positive number of sequence (-n) required [error]."
  else if 100 < gc ∨ gc < 0 then
    some "GC percentage (-gc) must be between 0 .. 100 [error]."
  else none

/-- The scaffold `list('AT' * seq_len)[:seq_len]` built at the top of each
iteration of `adhoc_generator`'s loop. -/
def at_scaffold (l : ℕ) : List Char :=
  ((List.replicate l (['A', 'T'])).flatten).take l

/-- `num_gc_reqd = int(len(seq_list) * gc_perc)` where
`gc_perc = gc / 100.0`: every float operation rounds via `rnd`, and `int`
truncates (for the nonnegative values at hand, takes the floor). -/
def num_gc_reqd (l gc : ℕ) : ℕ :=
  (⌊rnd ((rnd ((at_scaffold l).length : ℚ)) * rnd (rnd (gc : ℚ) / 100))⌋).toNat

/-- One iteration of `adhoc_generator`'s loop, producing one sequence.
`perm` stands for the `random.shuffle`d `list(range(0, len(seq_list)))`,
and `g_or_c p` for the `random.choice(['G', 'C'])` drawn when position `p`
is overwritten. -/
def gen_one_seq (l gc : ℕ) (perm : List ℕ) (g_or_c : ℕ → Char) : List Char :=
  (perm.take (num_gc_reqd l gc)).foldl (fun s p => s.set p (g_or_c p))
    (at_scaffold l)

/-- `adhoc_generator(n, l, gc)`: the list of `n` generated sequences, with
the random draws of iteration `k` supplied by `perms k` and `choices k`. -/
def adhoc_generator (n l gc : ℕ) (perms : ℕ → List ℕ)
    (choices : ℕ → ℕ → Char) : List (List Char) :=
  (List.range n).map (fun k => gen_one_seq l gc (perms k) (choices k))

/-- `output(seqs)`: the printed FASTA text, one string per `print` call.
`shuffles k` stands for the `random.shuffle` applied to sequence `k`
before printing. -/
def output (shuffles : ℕ → List Char → List Char)
    (seqs : List (List Char)) : List String :=
  seqs.enum.map (fun p =>
    ">sequence_" ++ toString (p.1 + 1) ++ "\n" ++ String.mk (shuffles p.1 p.2))

/-- The `__main__` block of `randseq.py` after argument parsing: validate,
then either print the caught `IOError` message or print the generated
sequences. -/
def randseq_main (n l gc : ℤ) (perms : ℕ → List ℕ)
    (choices : ℕ → ℕ → Char) (shuffles : ℕ → List Char → List Char) :
    List String :=
  match validate_args n l gc with
  | some e => [e]
  | none => output shuffles (adhoc_generator n.toNat l.toNat gc.toNat perms choices)

/-! ## Embedding of `fasta/slidingwindow.py` -/

/-- `str(seq).upper().count('N')`. -/
def n_count (s : List Char) : ℕ := (s.map Char.toUpper).count 'N'

/-- `get_n_perc(seq) = float(count) / len(seq) * 100` in IEEE doubles.
On an empty sequence the Python code raises `ZeroDivisionError`; the model
returns `0` there (rational division by zero), and every claim about the
empty window is stated in terms of which windows the scanner evaluates,
never in terms of this value. -/
def get_n_perc (s : List Char) : ℚ :=
  rnd (rnd (rnd (n_count s : ℚ) / rnd (s.length : ℚ)) * 100)

/-- The `while True` loop of `run_slidingwindow`, recorded as the list of
all computed candidate windows `(start, window, emitted)`.  On entry to an
iteration `start = end - o` and `win = seq[start : start + w]`; the
iteration `break`s when `start > len(seq)`, and otherwise emits `win`
when `start != len(seq) and get_n_perc(win) < n` (so `get_n_perc` is
never called when `start == len(seq)`, by short-circuiting).  Successive
iterations advance `start` by `(start + w) - o - start = w - o`.  The
disjunct `w ≤ o` in the guard can never hold when the function is reached
(the CLI rejects `w <= o` first); it only makes the recursion
well-founded. -/
def slideSteps (seq : List Char) (w o : ℕ) (n : ℤ) (start : ℕ) :
    List (ℕ × List Char × Bool) :=
  if h : seq.length < start ∨ w ≤ o then []
  else
    (start, (seq.drop start).take w,
        decide (start ≠ seq.length ∧
          get_n_perc ((seq.drop start).take w) < (n : ℚ))) ::
      slideSteps seq w o n (start + (w - o))
termination_by seq.length + 1 - start
decreasing_by
  push_neg at h
  omega

/-- The emitted `(start, window)` pairs of `run_slidingwindow` for a single
FASTA entry with sequence `seq`: the first chunk `seq[0:w]` at offset `0`
(emitted when its N-percentage is below `n`), followed by the emitted
windows of the loop, whose first iteration has `start = w - o`. -/
def run_slidingwindow_record (seq : List Char) (w o : ℕ) (n : ℤ) :
    List (ℕ × List Char) :=
  (if get_n_perc (seq.take w) < (n : ℚ) then [(0, seq.take w)] else []) ++
    ((slideSteps seq w o n (w - o)).filter (fun t => t.2.2)).map
      (fun t => (t.1, t.2.1))

/-- The start offsets of every window the scanner computes for one record:
the unconditional first chunk at offset `0` plus every loop candidate. -/
def computed_starts (seq : List Char) (w o : ℕ) (n : ℤ) : List ℕ :=
  0 :: (slideSteps seq w o n (w - o)).map (fun t => t.1)

/-- The windows on which `run_slidingwindow` actually calls `get_n_perc`:
the first chunk unconditionally, and each loop candidate whose `start`
differs from `len(seq)` (short-circuit of
`start != len(seq) and get_n_perc(win) < n`). -/
def evaluated_windows (seq : List Char) (w o : ℕ) (n : ℤ) : List (List Char) :=
  seq.take w ::
    ((slideSteps seq w o n (w - o)).filter
      (fun t => t.1 != seq.length)).map (fun t => t.2.1)

/-- The lines printed for one record: a header and the window body per
emitted window. -/
def record_lines (d : String) (w o : ℕ) (n : ℤ) (seq : List Char) :
    List String :=
  (run_slidingwindow_record seq w o n).flatMap (fun p =>
    [">" ++ d ++ "|" ++ toString p.1 ++ "|w|" ++ toString w ++ "|o|" ++
        toString o,
      String.mk p.2])

/-- The `__main__` block of `slidingwindow.py` after argument parsing:
reject `w <= o` with the caught `IOError` message, otherwise run the
scanner over all records `(description, sequence)`. -/
def slidingwindow_main (records : List (String × List Char)) (w o : ℕ)
    (n : ℤ) : List String :=
  if w ≤ o then ["Window size must be > overlap size."]
  else records.flatMap (fun r => record_lines r.1 w o n r.2)


/-- The concrete window used to exhibit the threshold-equality bug of
claim C4: 100 bases of which exactly 29 are 'N'. -/
def win29 : List Char := List.replicate 29 'N' ++ List.replicate 71 'A'

/-! ## Properties of the float rounding model -/

lemma rnd_zero : rnd 0 = 0 := by
  rw [rnd, if_pos le_rfl]

lemma log2_eq_of (q : ℚ) (e : ℤ) (hq : 0 < q) (h1 : (2 : ℚ) ^ e ≤ q)
    (h2 : q < (2 : ℚ) ^ (e + 1)) : Int.log 2 q = e := by
  have hb : (1 : ℕ) < 2 := by norm_num
  have hle : e ≤ Int.log 2 q := by
    rw [← Int.zpow_le_iff_le_log hb hq]
    exact_mod_cast h1
  have hlt : Int.log 2 q < e + 1 := by
    rw [← Int.lt_zpow_iff_log_lt hb hq]
    exact_mod_cast h2
  omega

/-- Evaluation rule for `rnd` in the round-down (or exact) case: if
`2 ^ e ≤ q < 2 ^ (e + 1)` and the scaled value `q / 2 ^ (e - 52)` is less
than half an ulp above its floor `m0`, then `rnd q = m0 * 2 ^ (e - 52)`. -/
lemma rnd_eq_of (q : ℚ) (e m0 : ℤ) (hq : 0 < q) (h1 : (2 : ℚ) ^ e ≤ q)
    (h2 : q < (2 : ℚ) ^ (e + 1)) (he : -1022 ≤ e)
    (hm : (m0 : ℚ) ≤ q / 2 ^ (e - 52))
    (hr : q / 2 ^ (e - 52) - (m0 : ℚ) < 1 / 2) :
    rnd q = (m0 : ℚ) * 2 ^ (e - 52) := by
  have hfloor : ⌊q / 2 ^ (e - 52)⌋ = m0 := by
    rw [Int.floor_eq_iff]
    refine ⟨hm, ?_⟩
    push_cast
    linarith
  rw [rnd, if_neg (not_le.2 hq), log2_eq_of q e hq h1 h2, max_eq_left he]
  simp only [hfloor]
  rw [if_pos hr]

lemma rnd_29 : rnd (29 : ℚ) = 29 := by
  have h := rnd_eq_of (29 : ℚ) 4 8162774324609024 (by norm_num)
    (by norm_num) (by norm_num) (by norm_num) (by norm_num) (by norm_num)
  rw [h]
  norm_num

lemma rnd_100 : rnd (100 : ℚ) = 100 := by
  have h := rnd_eq_of (100 : ℚ) 6 7036874417766400 (by norm_num)
    (by norm_num) (by norm_num) (by norm_num) (by norm_num) (by norm_num)
  rw [h]
  norm_num

/-- The CPython division `29 / 100.0` does not produce `29/100`: the
nearest double is `5224175567749775 / 2 ^ 54`, which is slightly below. -/
lemma rnd_29_div_100 :
    rnd ((29 : ℚ) / 100) = (5224175567749775 : ℚ) * 2 ^ (-54 : ℤ) := by
  have h := rnd_eq_of ((29 : ℚ) / 100) (-2) 5224175567749775 (by norm_num)
    (by norm_num) (by norm_num) (by norm_num) (by norm_num) (by norm_num)
  rw [h]
  norm_num

/-- Multiplying the double nearest to `0.29` by `100` rounds to
`8162774324609023 / 2 ^ 48 = 28.999999999999996`, strictly below `29`. -/
lemma rnd_mul_100_29 :
    rnd ((100 : ℚ) * ((5224175567749775 : ℚ) * 2 ^ (-54 : ℤ))) =
      (8162774324609023 : ℚ) * 2 ^ (-48 : ℤ) := by
  have h := rnd_eq_of ((100 : ℚ) * ((5224175567749775 : ℚ) * 2 ^ (-54 : ℤ)))
    4 8162774324609023 (by norm_num) (by norm_num) (by norm_num)
    (by norm_num) (by norm_num) (by norm_num)
  rw [h]
  norm_num

lemma rnd_29_div_100_mul_100 :
    rnd (((5224175567749775 : ℚ) * 2 ^ (-54 : ℤ)) * 100) =
      (8162774324609023 : ℚ) * 2 ^ (-48 : ℤ) := by
  rw [mul_comm]
  exact rnd_mul_100_29

lemma floor_28 : ⌊(8162774324609023 : ℚ) * 2 ^ (-48 : ℤ)⌋ = 28 := by
  rw [Int.floor_eq_iff]
  constructor <;> norm_num
/-! ## Structural lemmas about the scanner loop -/

lemma slideSteps_nil {seq : List Char} {w o : ℕ} {n : ℤ} {start : ℕ}
    (h : seq.length < start) : slideSteps seq w o n start = [] := by
  rw [slideSteps, dif_pos (Or.inl h)]

lemma slideSteps_cons {seq : List Char} {w o : ℕ} {n : ℤ} {start : ℕ}
    (h1 : start ≤ seq.length) (h2 : o < w) :
    slideSteps seq w o n start =
      (start, (seq.drop start).take w,
          decide (start ≠ seq.length ∧
            get_n_perc ((seq.drop start).take w) < (n : ℚ))) ::
        slideSteps seq w o n (start + (w - o)) := by
  rw [slideSteps, dif_neg (by omega)]

lemma mem_slideSteps {seq : List Char} {w o : ℕ} {n : ℤ} {start : ℕ}
    {t : ℕ × List Char × Bool} (ht : t ∈ slideSteps seq w o n start) :
    start ≤ t.1 ∧ t.1 ≤ seq.length ∧ t.2.1 = (seq.drop t.1).take w ∧
      t.2.2 = decide (t.1 ≠ seq.length ∧
        get_n_perc ((seq.drop t.1).take w) < (n : ℚ)) := by
  induction start using slideSteps.induct seq w o n with
  | case1 start h =>
    rw [slideSteps, dif_pos h] at ht
    cases ht
  | case2 start h ih =>
    rw [slideSteps, dif_neg h, List.mem_cons] at ht
    push_neg at h
    rcases ht with rfl | ht
    · exact ⟨le_refl _, by omega, rfl, rfl⟩
    · have h4 := ih ht
      exact ⟨by omega, h4.2.1, h4.2.2.1, h4.2.2.2⟩

lemma slideSteps_starts_pairwise {seq : List Char} {w o : ℕ} {n : ℤ}
    (start : ℕ) :
    ((slideSteps seq w o n start).map (fun t => t.1)).Pairwise (· < ·) := by
  induction start using slideSteps.induct seq w o n with
  | case1 start h =>
    rw [slideSteps, dif_pos h]
    exact List.Pairwise.nil
  | case2 start h ih =>
    rw [slideSteps, dif_neg h, List.map_cons, List.pairwise_cons]
    push_neg at h
    refine ⟨?_, ih⟩
    intro s hs
    rw [List.mem_map] at hs
    obtain ⟨t, ht, rfl⟩ := hs
    have hb := (mem_slideSteps ht).1
    omega

lemma mem_starts_slideSteps {seq : List Char} {w o : ℕ} {n : ℤ}
    (h2 : o < w) :
    ∀ start s, start ≤ s → s ≤ seq.length → (w - o) ∣ (s - start) →
      s ∈ (slideSteps seq w o n start).map (fun t => t.1) := by
  intro start
  induction start using slideSteps.induct seq w o n with
  | case1 start h =>
    intro s h1 h3 _
    omega
  | case2 start h ih =>
    intro s h1 h3 hdvd
    rw [slideSteps, dif_neg h, List.map_cons]
    by_cases hss : s = start
    · subst hss
      exact List.mem_cons_self _ _
    · have hge : start + (w - o) ≤ s := by
        obtain ⟨k, hk⟩ := hdvd
        rcases k with _ | k'
        · omega
        · have : w - o ≤ (w - o) * (k' + 1) := by
            calc w - o = (w - o) * 1 := by ring
            _ ≤ (w - o) * (k' + 1) := Nat.mul_le_mul_left _ (by omega)
          omega
      have hdvd' : (w - o) ∣ (s - (start + (w - o))) := by
        have hrw : s - (start + (w - o)) = (s - start) - (w - o) := by omega
        rw [hrw]
        exact Nat.dvd_sub' hdvd dvd_rfl
      exact List.mem_cons_of_mem _ (ih s hge h3 hdvd')

lemma slideSteps_length {seq : List Char} {w o : ℕ} {n : ℤ} (h2 : o < w) :
    ∀ start, (slideSteps seq w o n start).length =
      if start ≤ seq.length then (seq.length - start) / (w - o) + 1 else 0 := by
  intro start
  induction start using slideSteps.induct seq w o n with
  | case1 start h =>
    rw [slideSteps, dif_pos h, if_neg (by omega)]
    rfl
  | case2 start h ih =>
    rw [slideSteps, dif_neg h, List.length_cons, ih]
    push_neg at h
    by_cases hle : start + (w - o) ≤ seq.length
    · rw [if_pos hle, if_pos (show start ≤ seq.length by omega)]
      have h1 : seq.length - start =
          (seq.length - (start + (w - o))) + (w - o) := by omega
      rw [h1, Nat.add_div_right _ (by omega)]
    · rw [if_neg hle, if_pos (show start ≤ seq.length by omega)]
      have h0 : (seq.length - start) / (w - o) = 0 := Nat.div_eq_of_lt (by omega)
      omega

lemma slideSteps_cover {seq : List Char} {w o : ℕ} {n : ℤ} (h2 : o < w) :
    ∀ start i, start ≤ i → i < seq.length →
      ∃ s ∈ (slideSteps seq w o n start).map (fun t => t.1),
        s ≤ i ∧ i < s + w := by
  intro start
  induction start using slideSteps.induct seq w o n with
  | case1 start h =>
    intro i h1 hiL
    omega
  | case2 start h ih =>
    intro i h1 hiL
    rw [slideSteps, dif_neg h, List.map_cons]
    by_cases hlt : i < start + (w - o)
    · exact ⟨start, List.mem_cons_self _ _, h1, by omega⟩
    · obtain ⟨s, hs, hs1, hs2⟩ := ih i (by omega) hiL
      exact ⟨s, List.mem_cons_of_mem _ hs, hs1, hs2⟩

/-! ## Lemmas about the generator -/

lemma at_scaffold_length (l : ℕ) : (at_scaffold l).length = l := by
  have hf : ((List.replicate l (['A', 'T'] : List Char)).flatten).length
      = 2 * l := by
    induction l with
    | zero => rfl
    | succ k ih =>
      rw [List.replicate_succ, List.flatten_cons, List.length_append, ih]
      simp only [List.length_cons, List.length_nil]
      omega
  rw [at_scaffold, List.length_take, hf]
  omega

lemma mem_at_scaffold {l : ℕ} {c : Char} (hc : c ∈ at_scaffold l) :
    c = 'A' ∨ c = 'T' := by
  rw [at_scaffold] at hc
  have hc2 := List.take_subset _ _ hc
  rw [List.mem_flatten] at hc2
  obtain ⟨xs, hxs, hcxs⟩ := hc2
  rw [List.eq_of_mem_replicate hxs] at hcxs
  simpa using hcxs

lemma foldl_set_length (g : ℕ → Char) :
    ∀ (ps : List ℕ) (s0 : List Char),
      (ps.foldl (fun s p => s.set p (g p)) s0).length = s0.length := by
  intro ps
  induction ps with
  | nil => intro s0; rfl
  | cons p ps ih =>
    intro s0
    rw [List.foldl_cons, ih, List.length_set]

lemma foldl_set_mem (g : ℕ → Char) :
    ∀ (ps : List ℕ) (s0 : List Char) (c : Char),
      c ∈ ps.foldl (fun s p => s.set p (g p)) s0 →
      c ∈ s0 ∨ ∃ p, c = g p := by
  intro ps
  induction ps with
  | nil =>
    intro s0 c hc
    exact Or.inl hc
  | cons p ps ih =>
    intro s0 c hc
    rw [List.foldl_cons] at hc
    rcases ih _ c hc with hin | hex
    · rcases List.mem_or_eq_of_mem_set hin with hs | hs
      · exact Or.inl hs
      · exact Or.inr ⟨p, hs⟩
    · exact Or.inr hex

/-! ## Lemmas about `get_n_perc` -/

lemma get_n_perc_of_n_count_zero {s : List Char} (h : n_count s = 0) :
    get_n_perc s = 0 := by
  rw [get_n_perc, h]
  simp [rnd_zero]

lemma n_count_sublist {s t : List Char} (h : t.Sublist s) :
    n_count t ≤ n_count s :=
  List.Sublist.count_le (List.Sublist.map _ h) _

lemma num_gc_reqd_100_29 : num_gc_reqd 100 29 = 28 := by
  rw [num_gc_reqd, at_scaffold_length]
  have h1 : (((100 : ℕ)) : ℚ) = (100 : ℚ) := by norm_num
  have h2 : (((29 : ℕ)) : ℚ) = (29 : ℚ) := by norm_num
  rw [h1, h2, rnd_100, rnd_29, rnd_29_div_100, rnd_mul_100_29, floor_28]
  rfl

/-! ## The claims -/

/-- Claim C2: for every valid input (count > 0, length > 0,
0 ≤ gc_percent ≤ 100) and every realization of the random draws, the
generator returns exactly `count` sequences, each of exactly `length`
characters, every character drawn from the alphabet {A, C, G, T}. -/
theorem c2_generator_shape (n l gc : ℕ) (perms : ℕ → List ℕ)
    (choices : ℕ → ℕ → Char) (hn : 0 < n) (hl : 0 < l) (hgc : gc ≤ 100)
    (hch : ∀ k p, choices k p = 'G' ∨ choices k p = 'C') :
    (adhoc_generator n l gc perms choices).length = n ∧
      ∀ s ∈ adhoc_generator n l gc perms choices,
        s.length = l ∧ ∀ c ∈ s, c = 'A' ∨ c = 'C' ∨ c = 'G' ∨ c = 'T' := by
  constructor
  · rw [adhoc_generator, List.length_map, List.length_range]
  · intro s hs
    rw [adhoc_generator, List.mem_map] at hs
    obtain ⟨k, _, rfl⟩ := hs
    constructor
    · rw [gen_one_seq, foldl_set_length, at_scaffold_length]
    · intro c hc
      rcases foldl_set_mem _ _ _ _ hc with hin | ⟨p, hp⟩
      · rcases mem_at_scaffold hin with h | h
        · exact Or.inl h
        · exact Or.inr (Or.inr (Or.inr h))
      · rcases hch k p with h | h
        · rw [hp, h]
          exact Or.inr (Or.inr (Or.inl rfl))
        · rw [hp, h]
          exact Or.inr (Or.inl rfl)

theorem c2_generator_shape_witness :
    0 < 1 ∧ 0 < 3 ∧ 50 ≤ 100 ∧
      ((adhoc_generator 1 3 50 (fun _ => [2, 0, 1])
            (fun _ _ => 'G')).length = 1 ∧
        ∀ s ∈ adhoc_generator 1 3 50 (fun _ => [2, 0, 1]) (fun _ _ => 'G'),
          s.length = 3 ∧ ∀ c ∈ s, c = 'A' ∨ c = 'C' ∨ c = 'G' ∨ c = 'T') :=
  ⟨by norm_num, by norm_num, by norm_num,
    c2_generator_shape 1 3 50 _ _ (by norm_num) (by norm_num) (by norm_num)
      (fun _ _ => Or.inl rfl)⟩

/-- Claim C5: with 0 ≤ overlap < width, the clipped ranges
`[start, min (start + width) L)` of the computed windows (emitted or
suppressed) cover every index of the source sequence. -/
theorem c5_window_coverage (seq : List Char) (w o : ℕ) (n : ℤ)
    (h : o < w) :
    ∀ i < seq.length, ∃ s ∈ computed_starts seq w o n,
      s ≤ i ∧ i < min (s + w) seq.length := by
  intro i hi
  rw [computed_starts]
  by_cases hiw : i < w
  · exact ⟨0, List.mem_cons_self _ _, Nat.zero_le _, by omega⟩
  · obtain ⟨s, hs, hs1, hs2⟩ := slideSteps_cover h (w - o) i (by omega) hi
    exact ⟨s, List.mem_cons_of_mem _ hs, hs1, by omega⟩

theorem c5_window_coverage_witness :
    3 < 10 ∧ ∀ i < (List.replicate 25 'A').length,
      ∃ s ∈ computed_starts (List.replicate 25 'A') 10 3 50,
        s ≤ i ∧ i < min (s + 10) (List.replicate 25 'A').length :=
  ⟨by norm_num, c5_window_coverage (List.replicate 25 'A') 10 3 50 (by norm_num)⟩

/-- Claim C7: with width > overlap the window loop terminates: from any
start offset not beyond the sequence end the loop takes one step to
`start + (width - overlap)`, and the whole candidate list is finite, of
length `(L - start) / (width - overlap) + 1`. -/
theorem c7_loop_terminates (seq : List Char) (w o : ℕ) (n : ℤ)
    (h : o < w) :
    (∀ start, start ≤ seq.length → ∃ win flag,
        slideSteps seq w o n start =
          (start, win, flag) :: slideSteps seq w o n (start + (w - o))) ∧
      ∀ start, (slideSteps seq w o n start).length =
        if start ≤ seq.length then (seq.length - start) / (w - o) + 1
        else 0 := by
  constructor
  · intro start hstart
    exact ⟨_, _, slideSteps_cons hstart h⟩
  · exact slideSteps_length h

theorem c7_loop_terminates_witness :
    3 < 10 ∧
      ((∀ start, start ≤ (List.replicate 25 'A').length → ∃ win flag,
          slideSteps (List.replicate 25 'A') 10 3 50 start =
            (start, win, flag) ::
              slideSteps (List.replicate 25 'A') 10 3 50 (start + (10 - 3))) ∧
        ∀ start, (slideSteps (List.replicate 25 'A') 10 3 50 start).length =
          if start ≤ (List.replicate 25 'A').length then
            ((List.replicate 25 'A').length - start) / (10 - 3) + 1
          else 0) :=
  ⟨by norm_num, c7_loop_terminates (List.replicate 25 'A') 10 3 50 (by norm_num)⟩

/-- Claim C9: when width ≤ overlap the scanner fails validation before
processing any record: the only printed line is the error message, and no
printed line is a FASTA record header. -/
theorem c9_scanner_validation (records : List (String × List Char))
    (w o : ℕ) (n : ℤ) (h : w ≤ o) :
    slidingwindow_main records w o n =
        ["Window size must be > overlap size."] ∧
      ∀ line ∈ slidingwindow_main records w o n,
        line.data.head? ≠ some '>' := by
  rw [slidingwindow_main, if_pos h]
  refine ⟨rfl, ?_⟩
  intro line hline
  rw [List.mem_singleton] at hline
  subst hline
  decide

theorem c9_scanner_validation_witness :
    10 ≤ 10 ∧
      (slidingwindow_main [("chr1", ['A', 'C'])] 10 10 50 =
          ["Window size must be > overlap size."] ∧
        ∀ line ∈ slidingwindow_main [("chr1", ['A', 'C'])] 10 10 50,
          line.data.head? ≠ some '>') :=
  ⟨le_refl 10, c9_scanner_validation [("chr1", ['A', 'C'])] 10 10 50 (le_refl 10)⟩

/-- Claim C10: `get_n_perc` divides by the window length with no guard,
so the scanner (under width > overlap ≥ 0) passes it a length-0 window
exactly when the record's sequence is empty: the first chunk of an empty
record is empty, and every window evaluated for a non-empty record is
non-empty. -/
theorem c10_zero_length_window_iff_empty (seq : List Char) (w o : ℕ)
    (n : ℤ) (h : o < w) :
    (∃ win ∈ evaluated_windows seq w o n, win.length = 0) ↔ seq = [] := by
  constructor
  · rintro ⟨win, hwin, hlen⟩
    rw [evaluated_windows, List.mem_cons] at hwin
    rcases hwin with rfl | hwin
    · rw [List.length_take] at hlen
      have : seq.length = 0 := by omega
      exact List.eq_nil_of_length_eq_zero this
    · rw [List.mem_map] at hwin
      obtain ⟨t, ht, rfl⟩ := hwin
      rw [List.mem_filter] at ht
      obtain ⟨ht, hne⟩ := ht
      have hm := mem_slideSteps ht
      rw [bne_iff_ne] at hne
      rw [hm.2.2.1, List.length_take, List.length_drop] at hlen
      have h1 := hm.2.1
      omega
  · rintro rfl
    exact ⟨([] : List Char).take w, List.mem_cons_self _ _, by simp⟩

theorem c10_zero_length_window_iff_empty_witness :
    3 < 10 ∧
      ((∃ win ∈ evaluated_windows (List.replicate 25 'A') 10 3 50,
          win.length = 0) ↔ List.replicate 25 'A' = ([] : List Char)) :=
  ⟨by norm_num,
    c10_zero_length_window_iff_empty (List.replicate 25 'A') 10 3 50 (by norm_num)⟩

/-- Claim C6: with width > overlap, for a non-empty record every emitted
window's start offset is strictly below the sequence length `L`; when
`(width - overlap) ∣ L` a candidate with start = L is computed (it is
never emitted, by the first part); the emitted start offsets are strictly
increasing (hence pairwise distinct, no double emission); and every loop
candidate whose emission test passes is emitted (no tail window skipped). -/
theorem c6_emission_invariants (seq : List Char) (w o : ℕ) (n : ℤ)
    (h : o < w) (hne : seq ≠ []) :
    (∀ p ∈ run_slidingwindow_record seq w o n, p.1 < seq.length) ∧
      ((w - o) ∣ seq.length →
        seq.length ∈ (slideSteps seq w o n (w - o)).map (fun t => t.1)) ∧
      ((run_slidingwindow_record seq w o n).map
        (fun p => p.1)).Pairwise (· < ·) ∧
      ∀ t ∈ slideSteps seq w o n (w - o), t.2.2 = true →
        (t.1, t.2.1) ∈ run_slidingwindow_record seq w o n := by
  have hL : 0 < seq.length := List.length_pos.2 hne
  have emitted_lt : ∀ t : ℕ × List Char × Bool,
      t ∈ slideSteps seq w o n (w - o) → t.2.2 = true → t.1 < seq.length := by
    intro t ht hflag
    have hm := mem_slideSteps ht
    rw [hm.2.2.2, decide_eq_true_eq] at hflag
    exact lt_of_le_of_ne hm.2.1 hflag.1
  refine ⟨?_, ?_, ?_, ?_⟩
  · intro p hp
    rw [run_slidingwindow_record, List.mem_append] at hp
    rcases hp with hp | hp
    · split_ifs at hp with hc
      · rw [List.mem_singleton] at hp
        rw [hp]
        exact hL
      · simp at hp
    · rw [List.mem_map] at hp
      obtain ⟨t, htf, rfl⟩ := hp
      rw [List.mem_filter] at htf
      exact emitted_lt t htf.1 htf.2
  · intro hdvd
    exact mem_starts_slideSteps h (w - o) seq.length
      (Nat.le_of_dvd hL hdvd) (le_refl _) (Nat.dvd_sub' hdvd dvd_rfl)
  · have hloop : (((slideSteps seq w o n (w - o)).filter
        (fun t => t.2.2)).map (fun t => (t.1, t.2.1))).map (fun p => p.1) =
        ((slideSteps seq w o n (w - o)).filter (fun t => t.2.2)).map
          (fun t => t.1) := by
      rw [List.map_map]
      rfl
    have hpw : (((slideSteps seq w o n (w - o)).filter
        (fun t => t.2.2)).map (fun t => t.1)).Pairwise (· < ·) :=
      List.Pairwise.sublist (List.Sublist.map _ (List.filter_sublist _))
        (slideSteps_starts_pairwise (w - o))
    rw [run_slidingwindow_record, List.map_append, hloop]
    split_ifs with hc
    · rw [show ([(0, seq.take w)] : List (ℕ × List Char)).map
          (fun p => p.1) = [0] from rfl]
      rw [List.singleton_append, List.pairwise_cons]
      refine ⟨?_, hpw⟩
      intro s hsmem
      rw [List.mem_map] at hsmem
      obtain ⟨t, htf, rfl⟩ := hsmem
      rw [List.mem_filter] at htf
      have hm := mem_slideSteps htf.1
      omega
    · rw [show (([] : List (ℕ × List Char))).map (fun p => p.1) = []
          from rfl, List.nil_append]
      exact hpw
  · intro t ht hflag
    rw [run_slidingwindow_record, List.mem_append]
    right
    rw [List.mem_map]
    exact ⟨t, List.mem_filter.2 ⟨ht, hflag⟩, rfl⟩

theorem c6_emission_invariants_witness :
    3 < 10 ∧ List.replicate 25 'A' ≠ ([] : List Char) ∧
      ((∀ p ∈ run_slidingwindow_record (List.replicate 25 'A') 10 3 50,
          p.1 < (List.replicate 25 'A').length) ∧
        ((10 - 3) ∣ (List.replicate 25 'A').length →
          (List.replicate 25 'A').length ∈
            (slideSteps (List.replicate 25 'A') 10 3 50 (10 - 3)).map
              (fun t => t.1)) ∧
        ((run_slidingwindow_record (List.replicate 25 'A') 10 3 50).map
          (fun p => p.1)).Pairwise (· < ·) ∧
        ∀ t ∈ slideSteps (List.replicate 25 'A') 10 3 50 (10 - 3),
          t.2.2 = true →
          (t.1, t.2.1) ∈ run_slidingwindow_record (List.replicate 25 'A') 10 3 50) :=
  ⟨by norm_num, by simp,
    c6_emission_invariants (List.replicate 25 'A') 10 3 50 (by norm_num) (by simp)⟩

/-- Claim C8: on invalid generator input (length ≤ 0, count ≤ 0,
gc_percent < 0 or gc_percent > 100) the program prints exactly one line,
the error message of the first violated check — which names the offending
parameter — and emits no sequence record (no printed line is a FASTA
record). -/
theorem c8_generator_validation (n l gc : ℤ) (perms : ℕ → List ℕ)
    (choices : ℕ → ℕ → Char) (shuffles : ℕ → List Char → List Char)
    (hinv : l ≤ 0 ∨ n ≤ 0 ∨ gc < 0 ∨ 100 < gc) :
    ∃ e, randseq_main n l gc perms choices shuffles = [e] ∧
      e.data.head? ≠ some '>' ∧
      ((l ≤ 0 ∧ e = "Positive sequence length (-l) required [error].") ∨
        (0 < l ∧ n ≤ 0 ∧
          e = "Positive number of sequence (-n) required [error].") ∨
        (0 < l ∧ 0 < n ∧ (gc < 0 ∨ 100 < gc) ∧
          e = "GC percentage (-gc) must be between 0 .. 100 [error].")) := by
  rw [randseq_main, validate_args]
  by_cases h1 : l ≤ 0
  · rw [if_pos h1]
    exact ⟨_, rfl, by decide, Or.inl ⟨h1, rfl⟩⟩
  · rw [if_neg h1]
    by_cases h2 : n ≤ 0
    · rw [if_pos h2]
      exact ⟨_, rfl, by decide, Or.inr (Or.inl ⟨by omega, h2, rfl⟩)⟩
    · rw [if_neg h2]
      have h3 : 100 < gc ∨ gc < 0 := by omega
      rw [if_pos h3]
      exact ⟨_, rfl, by decide,
        Or.inr (Or.inr ⟨by omega, by omega, by omega, rfl⟩)⟩

theorem c8_generator_validation_witness :
    ((0 : ℤ) ≤ 0 ∨ (1 : ℤ) ≤ 0 ∨ (50 : ℤ) < 0 ∨ (100 : ℤ) < 50) ∧
      ∃ e, randseq_main 1 0 50 (fun _ => []) (fun _ _ => 'G')
          (fun _ s => s) = [e] ∧
        e.data.head? ≠ some '>' ∧
        (((0 : ℤ) ≤ 0 ∧
            e = "Positive sequence length (-l) required [error].") ∨
          ((0 : ℤ) < 0 ∧ (1 : ℤ) ≤ 0 ∧
            e = "Positive number of sequence (-n) required [error].") ∨
          ((0 : ℤ) < 0 ∧ (0 : ℤ) < 1 ∧ ((50 : ℤ) < 0 ∨ (100 : ℤ) < 50) ∧
            e = "GC percentage (-gc) must be between 0 .. 100 [error].")) :=
  ⟨Or.inl (le_refl 0),
    c8_generator_validation 1 0 50 (fun _ => []) (fun _ _ => 'G')
      (fun _ s => s) (Or.inl (le_refl 0))⟩

/-- Claim C3: for width 10, overlap 3, a record of length 25 containing no
N characters (so every window passes any positive threshold), the emitted
windows have start offsets exactly 0, 7, 14, 21 in that order; each except
the last has length 10, and the last is clipped to the remaining 4. -/
theorem c3_scanner_offsets (seq : List Char) (n : ℤ) (hL : seq.length = 25)
    (hN : n_count seq = 0) (hn : 0 < n) :
    (run_slidingwindow_record seq 10 3 n).map (fun p => (p.1, p.2.length)) =
      [(0, 10), (7, 10), (14, 10), (21, 4)] := by
  have hnQ : (0 : ℚ) < (n : ℚ) := by exact_mod_cast hn
  have hsub : ∀ k j : ℕ, get_n_perc ((seq.drop k).take j) = 0 := by
    intro k j
    apply get_n_perc_of_n_count_zero
    have hs : ((seq.drop k).take j).Sublist seq :=
      (List.take_sublist _ _).trans (List.drop_sublist _ _)
    have := n_count_sublist hs
    omega
  have hchunk : get_n_perc (seq.take 10) = 0 := by
    apply get_n_perc_of_n_count_zero
    have := n_count_sublist (List.take_sublist 10 seq)
    omega
  have hf : ∀ k : ℕ, k ≠ seq.length →
      decide (k ≠ seq.length ∧
        get_n_perc ((seq.drop k).take 10) < (n : ℚ)) = true := by
    intro k hk
    exact decide_eq_true ⟨hk, by rw [hsub]; exact hnQ⟩
  rw [run_slidingwindow_record, if_pos (by rw [hchunk]; exact hnQ)]
  rw [show (10 - 3 : ℕ) = 7 from rfl]
  rw [slideSteps_cons (by omega) (by norm_num)]
  rw [show (7 + (10 - 3) : ℕ) = 14 from rfl]
  rw [slideSteps_cons (by omega) (by norm_num)]
  rw [show (14 + (10 - 3) : ℕ) = 21 from rfl]
  rw [slideSteps_cons (by omega) (by norm_num)]
  rw [show (21 + (10 - 3) : ℕ) = 28 from rfl]
  rw [slideSteps_nil (by omega)]
  rw [hf 7 (by omega), hf 14 (by omega), hf 21 (by omega)]
  simp only [List.filter_cons, List.filter_nil]
  simp [List.length_take, List.length_drop, hL]

theorem c3_scanner_offsets_witness :
    (List.replicate 25 'A').length = 25 ∧
      n_count (List.replicate 25 'A') = 0 ∧ (0 : ℤ) < 50 ∧
      (run_slidingwindow_record (List.replicate 25 'A') 10 3 50).map
          (fun p => (p.1, p.2.length)) =
        [(0, 10), (7, 10), (14, 10), (21, 4)] :=
  ⟨by simp, by decide, by norm_num,
    c3_scanner_offsets (List.replicate 25 'A') 50 (by simp) (by decide)
      (by norm_num)⟩

/-- Claim C1 (refuting evaluation): at length 100, gc_percent 29 the code
computes `int(100 * (29 / 100.0)) = 28` in float arithmetic while
`floor(100 * 29 / 100) = 29`, so every sequence generated at that input —
here with an arbitrary concrete realization of the random draws — carries
28 G/C characters, one fewer than the claim's
`floor(length * gc_percent / 100)`. -/
theorem c1_float_gc_deficit :
    num_gc_reqd 100 29 = 28 ∧ (100 * 29) / 100 = 29 ∧
      (gen_one_seq 100 29 (List.range 100) (fun _ => 'G')).countP
        (fun c => c == 'G' || c == 'C') = 28 := by
  refine ⟨num_gc_reqd_100_29, by norm_num, ?_⟩
  rw [gen_one_seq, num_gc_reqd_100_29]
  decide

/-- Claim C4 (counterexample): a 100-base window with exactly 29 'N's has
true N-percentage exactly equal to the threshold `n = 29` — in particular
not strictly below it — yet the scanner emits it, because `get_n_perc`
computes `29/100.0*100 = 28.999999999999996 < 29` in float arithmetic.
This refutes both directions of the claim at once: "emitted iff the true
N-percentage is strictly below the threshold" and "a window whose
N-percentage exactly equals the threshold is not emitted". -/
theorem c4_threshold_equality_emitted :
    (n_count win29 : ℚ) / (win29.length : ℚ) * 100 = ((29 : ℤ) : ℚ) ∧
      ¬((n_count win29 : ℚ) / (win29.length : ℚ) * 100 < ((29 : ℤ) : ℚ)) ∧
      get_n_perc win29 < ((29 : ℤ) : ℚ) ∧
      run_slidingwindow_record win29 100 0 29 = [(0, win29)] := by
  have hc : n_count win29 = 29 := by decide
  have hl : win29.length = 100 := by decide
  have hg : get_n_perc win29 = (8162774324609023 : ℚ) * 2 ^ (-48 : ℤ) := by
    rw [get_n_perc, hc, hl]
    have h1 : (((29 : ℕ)) : ℚ) = (29 : ℚ) := by norm_num
    have h2 : (((100 : ℕ)) : ℚ) = (100 : ℚ) := by norm_num
    rw [h1, h2, rnd_29, rnd_100, rnd_29_div_100, rnd_29_div_100_mul_100]
  refine ⟨by rw [hc, hl]; norm_num, by rw [hc, hl]; norm_num,
    by rw [hg]; norm_num, ?_⟩
  rw [run_slidingwindow_record]
  have htake : win29.take 100 = win29 := by decide
  rw [htake, if_pos (by rw [hg]; norm_num)]
  rw [show (100 - 0 : ℕ) = 100 from rfl]
  rw [slideSteps_cons (by rw [hl]) (by norm_num)]
  rw [show (100 + (100 - 0) : ℕ) = 200 from rfl]
  rw [slideSteps_nil (by rw [hl]; norm_num)]
  have hflag : decide ((100 : ℕ) ≠ win29.length ∧
      get_n_perc ((win29.drop 100).take 100) < ((29 : ℤ) : ℚ)) = false :=
    decide_eq_false (by rw [hl]; rintro ⟨hcontra, -⟩; exact hcontra rfl)
  rw [hflag]
  simp

/-! ## Rounding-error bounds for `rnd` -/

lemma rnd_close {q : ℚ} (hq : 0 < q) (he : -1022 ≤ Int.log 2 q) :
    q - (2 : ℚ) ^ (Int.log 2 q - 53) ≤ rnd q ∧
      rnd q ≤ q + (2 : ℚ) ^ (Int.log 2 q - 53) := by
  rw [rnd, if_neg (not_le.2 hq)]
  simp only [max_eq_left he]
  set u : ℚ := 2 ^ (Int.log 2 q - 52) with hudef
  have hu0 : (0 : ℚ) < u := zpow_pos (by norm_num) _
  set m0 : ℤ := ⌊q / u⌋ with hm0def
  set r : ℚ := q / u - (m0 : ℚ) with hrdef
  clear_value r
  have hfr0 : (0 : ℚ) ≤ r := by
    have := Int.floor_le (q / u)
    rw [hrdef]
    linarith
  have hfr1 : r < 1 := by
    have := Int.lt_floor_add_one (q / u)
    rw [hrdef]
    linarith
  have hq_eq : q = (m0 : ℚ) * u + r * u := by
    have hqu : (m0 : ℚ) + r = q / u := by rw [hrdef]; ring
    have := congrArg (· * u) hqu
    simp only [add_mul] at this
    rw [div_mul_cancel₀ _ (ne_of_gt hu0)] at this
    linarith
  have hup : (2 : ℚ) ^ (Int.log 2 q - 53) = u / 2 := by
    rw [hudef, show Int.log 2 q - 52 = (Int.log 2 q - 53) + 1 by ring,
      zpow_add₀ (two_ne_zero : (2 : ℚ) ≠ 0), zpow_one]
    ring
  rw [hup]
  split_ifs with h1 h2 h3
  · have hru : r * u ≤ (1 / 2) * u :=
      mul_le_mul_of_nonneg_right (le_of_lt h1) (le_of_lt hu0)
    have hru0 : 0 ≤ r * u := mul_nonneg hfr0 (le_of_lt hu0)
    constructor <;> linarith
  · have hru : (1 / 2) * u ≤ r * u :=
      mul_le_mul_of_nonneg_right (le_of_lt h2) (le_of_lt hu0)
    have hru1 : r * u ≤ 1 * u :=
      mul_le_mul_of_nonneg_right (le_of_lt hfr1) (le_of_lt hu0)
    push_cast
    constructor <;> nlinarith
  · have hr2 : r = 1 / 2 := by linarith
    have hru : r * u = u / 2 := by rw [hr2]; ring
    constructor <;> linarith
  · have hr2 : r = 1 / 2 := by linarith
    have hru : r * u = u / 2 := by rw [hr2]; ring
    have hdist : ((m0 : ℚ) + 1) * u = (m0 : ℚ) * u + u := by ring
    push_cast
    constructor <;> linarith

/-- Relative-error form: any value at least `2 ^ (-1022)` (the bottom of
the IEEE normal range) is rounded to within a factor `1 ± 2 ^ (-53)`. -/
lemma rnd_bounds {q : ℚ} (hq' : (2 : ℚ) ^ (-1022 : ℤ) ≤ q) :
    q * (1 - 2 ^ (-53 : ℤ)) ≤ rnd q ∧
      rnd q ≤ q * (1 + 2 ^ (-53 : ℤ)) := by
  have hq : 0 < q := lt_of_lt_of_le (zpow_pos (by norm_num) _) hq'
  have he : -1022 ≤ Int.log 2 q := by
    rw [← Int.zpow_le_iff_le_log (by norm_num) hq]
    push_cast
    exact hq'
  obtain ⟨h1, h2⟩ := rnd_close hq he
  have hlow : (2 : ℚ) ^ (Int.log 2 q) ≤ q := by
    have := Int.zpow_log_le_self (b := 2) (by norm_num) hq
    push_cast at this
    exact this
  have hulp : (2 : ℚ) ^ (Int.log 2 q - 53) ≤ q * 2 ^ (-53 : ℤ) := by
    rw [show Int.log 2 q - 53 = Int.log 2 q + (-53) by ring,
      zpow_add₀ (two_ne_zero : (2 : ℚ) ≠ 0)]
    exact mul_le_mul_of_nonneg_right hlow (le_of_lt (zpow_pos (by norm_num) _))
  constructor
  · nlinarith
  · nlinarith

lemma pow_neg1022_le {q : ℚ} (h : 1 / 200 ≤ q) :
    (2 : ℚ) ^ (-1022 : ℤ) ≤ q :=
  le_trans (by norm_num) h


lemma rel_pos (L R ε : ℚ) (hεs : ε ≤ 1 / 1000000) (hL : 1 ≤ L)
    (h : L * (1 - ε) ≤ R) : 0 < R := by
  nlinarith [mul_nonneg (sub_nonneg.2 hL) (show (0 : ℚ) ≤ 1 - ε by linarith)]

lemma rel_nonneg (c R ε : ℚ) (hεs : ε ≤ 1 / 1000000) (hc : 0 ≤ c)
    (h : c * (1 - ε) ≤ R) : 0 ≤ R := by
  nlinarith [mul_nonneg hc (show (0 : ℚ) ≤ 1 - ε by linarith)]

lemma d100_low (q d ε : ℚ) (hε0 : 0 < ε) (hεs : ε ≤ 1 / 1000000)
    (hq_low : 1 / 200 ≤ q) (hq_up : q ≤ 2) (hd1 : q * (1 - ε) ≤ d) :
    1 / 200 ≤ d * 100 := by
  nlinarith [mul_le_mul_of_nonneg_right hq_up (le_of_lt hε0)]

/-- Pure arithmetic: a quotient `q = a / b` of values within relative
error `ε` of `c` and `L` (with `L/100 ≤ c ≤ L`, `1 ≤ L`) lies in
`[1/200, 2]`. -/
lemma quotient_in_range (c L a b q ε : ℚ) (hε0 : 0 < ε)
    (hεs : ε ≤ 1 / 1000000) (hL1 : 1 ≤ L) (hcup : c ≤ L)
    (hclow : L / 100 ≤ c)
    (ha1 : c * (1 - ε) ≤ a) (ha2 : a ≤ c * (1 + ε))
    (hb1 : L * (1 - ε) ≤ b) (hb2 : b ≤ L * (1 + ε))
    (hqb : q * b = a) :
    1 / 200 ≤ q ∧ q ≤ 2 := by
  have h1ε : (0 : ℚ) ≤ 1 - ε := by linarith
  have hb0 : (0 : ℚ) < b := by
    nlinarith [mul_nonneg (sub_nonneg.2 hL1) h1ε]
  constructor
  · by_contra hcon
    push_neg at hcon
    have h1 : q * b < (1 / 200) * b := mul_lt_mul_of_pos_right hcon hb0
    have h2 : (1 / 200) * b ≤ (1 / 200) * (L * (1 + ε)) := by linarith
    have h3 : (1 / 200) * (L * (1 + ε)) ≤ L / 100 * (1 - ε) := by
      nlinarith [mul_nonneg (le_of_lt (lt_of_lt_of_le zero_lt_one hL1))
        (show (0 : ℚ) ≤ 1 - 3 * ε by linarith)]
    have h4 : L / 100 * (1 - ε) ≤ c * (1 - ε) :=
      mul_le_mul_of_nonneg_right hclow h1ε
    linarith
  · by_contra hcon
    push_neg at hcon
    have h1 : 2 * b < q * b := mul_lt_mul_of_pos_right hcon hb0
    have h2 : a ≤ L * (1 + ε) :=
      le_trans ha2 (mul_le_mul_of_nonneg_right hcup (by linarith))
    have h3 : L * (1 + ε) ≤ 2 * (L * (1 - ε)) := by
      nlinarith [mul_nonneg (le_of_lt (lt_of_lt_of_le zero_lt_one hL1))
        (show (0 : ℚ) ≤ 1 - 3 * ε by linarith)]
    linarith

/-- Pure arithmetic core of the one-point-below property: chaining the
relative errors of the four roundings keeps the computed percentage
strictly below `ν + 1` when the exact percentage is `ν ∈ [1, 100]`. -/
lemma float_pct_bound (ν c L a b q d p ε : ℚ) (hε0 : 0 < ε)
    (hεs : ε ≤ 1 / 1000000) (hL1 : 1 ≤ L)
    (hνeq : c * 100 = ν * L) (hν1 : 1 ≤ ν) (hν100 : ν ≤ 100)
    (ha2 : a ≤ c * (1 + ε))
    (hb1 : L * (1 - ε) ≤ b)
    (hqb : q * b = a) (hq0 : 0 ≤ q) (hq2 : q ≤ 2)
    (hd2 : d ≤ q * (1 + ε))
    (hp2 : p ≤ d * 100 * (1 + ε)) :
    p < ν + 1 := by
  have h1ε : (0 : ℚ) ≤ 1 - ε := by linarith
  have hL0 : (0 : ℚ) < L := by linarith
  have key1 : q * (L * (1 - ε)) ≤ c * (1 + ε) := by
    have h1 : q * (L * (1 - ε)) ≤ q * b := mul_le_mul_of_nonneg_left hb1 hq0
    linarith
  have key1' : 100 * q * (1 - ε) ≤ ν * (1 + ε) := by
    have hνε : c * 100 * ε = ν * L * ε := by rw [hνeq]
    have hL : L * (100 * q * (1 - ε)) ≤ L * (ν * (1 + ε)) := by
      nlinarith [key1]
    exact le_of_mul_le_mul_left hL hL0
  have s1 : d * 100 ≤ 100 * q * (1 + ε) := by nlinarith [hd2]
  have e1 : p ≤ 100 * q * (1 + ε) * (1 + ε) := by
    have e2 := mul_le_mul_of_nonneg_right s1
      (show (0 : ℚ) ≤ 1 + ε by linarith)
    linarith
  have e3 := mul_le_mul_of_nonneg_right e1 h1ε
  have e4 := mul_le_mul_of_nonneg_right key1'
    (show (0 : ℚ) ≤ (1 + ε) * (1 + ε) by nlinarith)
  have s2 : p * (1 - ε) ≤ ν * (1 + ε) * (1 + ε) * (1 + ε) := by
    nlinarith [e3, e4]
  have hνε1 : ν * ε ≤ 100 * (1 / 1000000) := by nlinarith
  have hε2 : ε * ε ≤ (1 / 1000000) * ε := mul_le_mul_of_nonneg_right hεs
    (le_of_lt hε0)
  have hnum : ν * (1 + ε) * (1 + ε) * (1 + ε) < (ν + 1) * (1 - ε) := by
    nlinarith [hνε1, hε2, hε0, hεs, hν1, hν100,
      mul_le_mul_of_nonneg_right hνε1 (le_of_lt hε0),
      mul_le_mul_of_nonneg_right hε2 (le_of_lt hε0)]
  have h1 : p * (1 - ε) < (ν + 1) * (1 - ε) := lt_of_le_of_lt s2 hnum
  exact lt_of_mul_lt_mul_right h1 h1ε

/-- A window whose true N-percentage is one whole percentage point below
the integer threshold `n` always passes the float comparison
`get_n_perc(win) < n`: the accumulated relative rounding error of the
four float operations is far smaller than one percentage point. -/
lemma get_n_perc_one_below {s : List Char} {n : ℤ} (hs : s ≠ [])
    (heq : (n_count s : ℚ) * 100 = ((n : ℚ) - 1) * (s.length : ℚ)) :
    get_n_perc s < (n : ℚ) := by
  have hL1 : 1 ≤ s.length := List.length_pos.2 hs
  have hLQ : (1 : ℚ) ≤ (s.length : ℚ) := by exact_mod_cast hL1
  have hcL : n_count s ≤ s.length := by
    have h1 : (s.map Char.toUpper).count 'N' ≤ (s.map Char.toUpper).length :=
      List.count_le_length _ _
    rw [List.length_map] at h1
    exact h1
  have hcLQ : ((n_count s : ℕ) : ℚ) ≤ (s.length : ℚ) := by exact_mod_cast hcL
  by_cases hc0 : n_count s = 0
  · rw [get_n_perc_of_n_count_zero hc0]
    rw [hc0] at heq
    push_cast at heq
    have hL0 : (0 : ℚ) < (s.length : ℚ) := by linarith
    have heq' : ((n : ℚ) - 1) * (s.length : ℚ) = 0 := by linarith
    have hn1 : (n : ℚ) = 1 := by
      rcases mul_eq_zero.1 heq' with h | h
      · linarith
      · linarith
    rw [hn1]
    norm_num
  · have hc1 : (1 : ℚ) ≤ ((n_count s : ℕ) : ℚ) := by
      have h1 : 1 ≤ n_count s := Nat.one_le_iff_ne_zero.2 hc0
      exact_mod_cast h1
    have hε0 : (0 : ℚ) < 2 ^ (-53 : ℤ) := zpow_pos (by norm_num) _
    have hεs : (2 : ℚ) ^ (-53 : ℤ) ≤ 1 / 1000000 := by norm_num
    -- the exact percentage ν = n - 1 lies in [1, 100]
    have hνpos : (0 : ℚ) < (n : ℚ) - 1 := by
      by_contra hcon
      push_neg at hcon
      have h1 : ((n : ℚ) - 1) * (s.length : ℚ) ≤ 0 :=
        mul_nonpos_of_nonpos_of_nonneg hcon (by linarith)
      linarith
    have hn2 : 2 ≤ n := by
      have h1 : (1 : ℚ) < (n : ℚ) := by linarith
      have h2 : (1 : ℤ) < n := by exact_mod_cast h1
      omega
    have hν1 : (1 : ℚ) ≤ (n : ℚ) - 1 := by
      have h1 : ((2 : ℤ) : ℚ) ≤ ((n : ℤ) : ℚ) := by exact_mod_cast hn2
      push_cast at h1
      linarith
    have hν100 : (n : ℚ) - 1 ≤ 100 := by
      by_contra hcon
      push_neg at hcon
      have h1 : 100 * (s.length : ℚ) < ((n : ℚ) - 1) * (s.length : ℚ) :=
        mul_lt_mul_of_pos_right hcon (by linarith)
      nlinarith
    have hclow : (s.length : ℚ) / 100 ≤ (n_count s : ℚ) := by
      have h1 : 1 * (s.length : ℚ) ≤ ((n : ℚ) - 1) * (s.length : ℚ) :=
        mul_le_mul_of_nonneg_right hν1 (by linarith)
      linarith
    obtain ⟨ha1, ha2⟩ := rnd_bounds (pow_neg1022_le (by linarith :
      1 / 200 ≤ ((n_count s : ℕ) : ℚ)))
    obtain ⟨hb1, hb2⟩ := rnd_bounds (pow_neg1022_le (by linarith :
      1 / 200 ≤ ((s.length : ℕ) : ℚ)))
    have hb0 : (0 : ℚ) < rnd ((s.length : ℕ) : ℚ) :=
      rel_pos _ _ _ hεs hLQ hb1
    have hqb : rnd ((n_count s : ℕ) : ℚ) / rnd ((s.length : ℕ) : ℚ) *
        rnd ((s.length : ℕ) : ℚ) = rnd ((n_count s : ℕ) : ℚ) :=
      div_mul_cancel₀ _ (ne_of_gt hb0)
    have ha0 : (0 : ℚ) ≤ rnd ((n_count s : ℕ) : ℚ) :=
      rel_nonneg _ _ _ hεs (by positivity) ha1
    have hq0 : (0 : ℚ) ≤
        rnd ((n_count s : ℕ) : ℚ) / rnd ((s.length : ℕ) : ℚ) :=
      div_nonneg ha0 (le_of_lt hb0)
    obtain ⟨hq_low, hq_up⟩ := quotient_in_range ((n_count s : ℕ) : ℚ)
      ((s.length : ℕ) : ℚ) (rnd ((n_count s : ℕ) : ℚ))
      (rnd ((s.length : ℕ) : ℚ))
      (rnd ((n_count s : ℕ) : ℚ) / rnd ((s.length : ℕ) : ℚ))
      (2 ^ (-53 : ℤ)) hε0 hεs hLQ hcLQ hclow ha1 ha2 hb1 hb2 hqb
    obtain ⟨hd1, hd2⟩ := rnd_bounds (pow_neg1022_le hq_low)
    have hd100 : 1 / 200 ≤
        rnd (rnd ((n_count s : ℕ) : ℚ) / rnd ((s.length : ℕ) : ℚ)) * 100 :=
      d100_low _ _ _ hε0 hεs hq_low hq_up hd1
    obtain ⟨hp1, hp2⟩ := rnd_bounds (pow_neg1022_le hd100)
    rw [get_n_perc]
    have hmain := float_pct_bound ((n : ℚ) - 1) ((n_count s : ℕ) : ℚ)
      ((s.length : ℕ) : ℚ) (rnd ((n_count s : ℕ) : ℚ))
      (rnd ((s.length : ℕ) : ℚ))
      (rnd ((n_count s : ℕ) : ℚ) / rnd ((s.length : ℕ) : ℚ))
      (rnd (rnd ((n_count s : ℕ) : ℚ) / rnd ((s.length : ℕ) : ℚ)))
      (rnd (rnd (rnd ((n_count s : ℕ) : ℚ) / rnd ((s.length : ℕ) : ℚ)) * 100))
      (2 ^ (-53 : ℤ)) hε0 hεs hLQ heq hν1 hν100 ha2 hb1 hqb hq0 hq_up hd2 hp2
    linarith

/-- Claim C4 (amended): a window the scanner considers is emitted exactly
when the float-computed N-percentage `get_n_perc` is strictly below the
threshold: the first chunk is emitted iff `get_n_perc(chunk) < n`, and a
loop candidate is emitted iff its start differs from the sequence length
and `get_n_perc(win) < n`.  A window whose true N-percentage is one whole
percentage point below the threshold always passes that comparison; a
window whose true N-percentage equals the threshold exactly may pass it
when rounding lands below (see the counterexample at 29 Ns in 100). -/
theorem c4_emission_iff_float (seq : List Char) (w o : ℕ) (n : ℤ)
    (h : o < w) :
    ((0, seq.take w) ∈ run_slidingwindow_record seq w o n ↔
        get_n_perc (seq.take w) < (n : ℚ)) ∧
      (∀ t ∈ slideSteps seq w o n (w - o),
        ((t.1, t.2.1) ∈ run_slidingwindow_record seq w o n ↔
          t.1 ≠ seq.length ∧ get_n_perc t.2.1 < (n : ℚ))) ∧
      ∀ s : List Char, s ≠ [] →
        (n_count s : ℚ) * 100 = ((n : ℚ) - 1) * (s.length : ℚ) →
        get_n_perc s < (n : ℚ) := by
  refine ⟨?_, ?_, fun s hs heq => get_n_perc_one_below hs heq⟩
  · constructor
    · intro hp
      rw [run_slidingwindow_record, List.mem_append] at hp
      rcases hp with hp | hp
      · split_ifs at hp with hc
        · exact hc
        · simp at hp
      · rw [List.mem_map] at hp
        obtain ⟨t', htf, heq2⟩ := hp
        rw [List.mem_filter] at htf
        have hm' := mem_slideSteps htf.1
        rw [Prod.mk.injEq] at heq2
        omega
    · intro hlt
      rw [run_slidingwindow_record, List.mem_append]
      left
      rw [if_pos hlt]
      exact List.mem_singleton.2 rfl
  · intro t ht
    have hm := mem_slideSteps ht
    constructor
    · intro hp
      rw [run_slidingwindow_record, List.mem_append] at hp
      rcases hp with hp | hp
      · split_ifs at hp with hc
        · rw [List.mem_singleton, Prod.mk.injEq] at hp
          omega
        · simp at hp
      · rw [List.mem_map] at hp
        obtain ⟨t', htf, heq2⟩ := hp
        rw [List.mem_filter] at htf
        have hm' := mem_slideSteps htf.1
        have hflag := htf.2
        rw [hm'.2.2.2, decide_eq_true_eq] at hflag
        rw [Prod.mk.injEq] at heq2
        rw [← hm'.2.2.1] at hflag
        rw [← heq2.1, ← heq2.2]
        exact hflag
    · rintro ⟨hne, hlt⟩
      rw [run_slidingwindow_record, List.mem_append]
      right
      rw [List.mem_map]
      refine ⟨t, List.mem_filter.2 ⟨ht, ?_⟩, rfl⟩
      rw [hm.2.2.2]
      apply decide_eq_true
      refine ⟨hne, ?_⟩
      rw [← hm.2.2.1]
      exact hlt

theorem c4_emission_iff_float_witness :
    0 < 1 ∧
      (((0, (['A'] : List Char).take 1) ∈
            run_slidingwindow_record ['A'] 1 0 50 ↔
          get_n_perc ((['A'] : List Char).take 1) < ((50 : ℤ) : ℚ)) ∧
        (∀ t ∈ slideSteps ['A'] 1 0 50 (1 - 0),
          ((t.1, t.2.1) ∈ run_slidingwindow_record ['A'] 1 0 50 ↔
            t.1 ≠ (['A'] : List Char).length ∧
              get_n_perc t.2.1 < ((50 : ℤ) : ℚ))) ∧
        ∀ s : List Char, s ≠ [] →
          (n_count s : ℚ) * 100 = (((50 : ℤ) : ℚ) - 1) * (s.length : ℚ) →
          get_n_perc s < ((50 : ℤ) : ℚ)) :=
  ⟨by norm_num, c4_emission_iff_float ['A'] 1 0 50 (by norm_num)⟩
